import Mathlib

/-!
Verification development for the Streamlit_creator repository.

The repository's one area with internal structure is the multi-phase project
wizard (recog4.py / recog5.py) together with its JSON repair logic, plus the
small Gemini chat front-ends (recog.py / recog3.py).  We shallowly embed the
relevant Python functions over `List Char` (Python `str`) and `List Nat`
(Python `bytes`):

  * `pyStrip`          models `str.strip()` (Python whitespace at both ends);
  * `unescapeQuotes`   models `raw.replace('\x5c"', '"')`;
  * `pyReSub1/2/3`     model the three `re.sub` calls of `clean_json_text`;
  * `json_loads`       models the strict-mode behaviour of Python's
                       `json.loads` (external stdlib dependency), returning
                       `none` on any `JSONDecodeError`;
  * `clean_json_text`, `parse_gemini_json`, `zip_project`, the phase state
    machine, the project-file assembly, the upload handler and the two chat
    handlers are translated from the sources recog4.py / recog5.py /
    recog.py / recog3.py.
-/

/-- Python whitespace (`str.strip`, and `\s` of the `re` module, ASCII part). -/
def isPySpace (c : Char) : Bool :=
  c == ' ' || c == '\t' || c == '\n' || c == '\r' || c == '\x0b' || c == '\x0c'

/-- Whitespace accepted by Python's `json` scanner (strictly smaller than
`isPySpace`: no vertical tab, no form feed). -/
def isJsonWs (c : Char) : Bool :=
  c == ' ' || c == '\t' || c == '\n' || c == '\r'

/-- Drop Python whitespace from the front (left part of `str.strip`). -/
def trimL (s : List Char) : List Char := s.dropWhile isPySpace

/-- Drop Python whitespace from the back (right part of `str.strip`). -/
def trimR : List Char → List Char
  | [] => []
  | c :: t => if (trimR t).isEmpty && isPySpace c then [] else c :: trimR t

/-- Python `str.strip()`. -/
def pyStrip (s : List Char) : List Char := trimR (trimL s)

/-- ASCII lowering, as used by `str.lower` / `re.IGNORECASE` on the
ASCII letters relevant here. -/
def toLowerA (c : Char) : Char :=
  if 'A' ≤ c ∧ c ≤ 'Z' then Char.ofNat (c.toNat + 32) else c

/-- Decimal digit test. -/
def isDigitC (c : Char) : Bool := decide ('0' ≤ c ∧ c ≤ '9')

/-! ### `str.replace('\x5c"', '"')`

Left-to-right, non-overlapping replacement of the two-character sequence
backslash-quote by a quote, as a single-pass transducer carrying the pending
unmatched backslash. -/

/-- Worker for `unescapeQuotes`; `pend = some '\x5c'` records a backslash whose
successor has not been examined yet. -/
def unescQGo : Option Char → List Char → List Char
  | none, [] => []
  | some p, [] => [p]
  | none, c :: rest =>
    if c == '\\' then unescQGo (some '\\') rest else c :: unescQGo none rest
  | some p, c :: rest =>
    if c == '"' then '"' :: unescQGo none rest
    else if c == '\\' then p :: unescQGo (some '\\') rest
    else p :: c :: unescQGo none rest

/-- Model of `raw.replace('\x5c"', '"')` in `clean_json_text`. -/
def unescapeQuotes (s : List Char) : List Char := unescQGo none s

/-- Whether the two-character sequence backslash-quote occurs (worker). -/
def hasEscQGo : Bool → List Char → Bool
  | _, [] => false
  | true, c :: rest => if c == '"' then true else hasEscQGo (c == '\\') rest
  | false, c :: rest => hasEscQGo (c == '\\') rest

/-- Whether the two-character sequence backslash-quote occurs in `s`. -/
def hasEscQuote (s : List Char) : Bool := hasEscQGo false s

/-! ### A generic model of `re.sub` scanning

`re.sub` walks the subject left to right; at each position it attempts a
match, replaces it and jumps past it on success, otherwise emits the current
character and advances by one.  `MULTILINE ^` anchors are tracked through the
`atStart` flag (true at position 0 and right after each newline of the
*original* subject).  Every matcher used here consumes at least one character,
so fuel equal to the subject length suffices; the fuel makes the definition
structurally recursive and hence computable by `rfl`. -/

/-- Generic `re.sub` driver.  `tryM atStart s` returns `some (n, repl)` to
replace the first `n` characters of `s` by `repl`, or `none`. -/
def reScan (tryM : Bool → List Char → Option (Nat × List Char)) :
    Nat → Bool → List Char → List Char
  | 0, _, s => s
  | _ + 1, _, [] => []
  | f + 1, atStart, c :: rest =>
    match tryM atStart (c :: rest) with
    | some (n, repl) =>
      repl ++ reScan tryM f ((((c :: rest).take n).getLastD 'x') == '\n') ((c :: rest).drop n)
    | none => c :: reScan tryM f (c == '\n') rest

/-- Match length of `` ```(?:json)? `` (with `re.IGNORECASE`) at the current
position: 7 when the fence is followed by `json`, 3 for a bare fence, 0 when
there is no fence here. -/
def fenceLen : List Char → Nat
  | '`' :: '`' :: '`' :: c1 :: c2 :: c3 :: c4 :: _ =>
    if toLowerA c1 == 'j' && toLowerA c2 == 's' && toLowerA c3 == 'o' && toLowerA c4 == 'n'
    then 7 else 3
  | '`' :: '`' :: '`' :: _ => 3
  | _ => 0

/-- Matcher for `re.sub(r"^```(?:json)?", "", raw, IGNORECASE | MULTILINE)`:
anchored at line starts, removes the fence marker. -/
def tryFenceOpen (atStart : Bool) (s : List Char) : Option (Nat × List Char) :=
  if atStart && fenceLen s != 0 then some (fenceLen s, []) else none

/-- Match length of `` ```$ `` (with `re.MULTILINE`): 3 when three backticks
are followed by end of input or a newline, else 0. -/
def fence3Len : List Char → Nat
  | '`' :: '`' :: '`' :: [] => 3
  | '`' :: '`' :: '`' :: '\n' :: _ => 3
  | _ => 0

/-- Matcher for `re.sub(r"```$", "", raw, MULTILINE)`. -/
def tryFenceClose (_ : Bool) (s : List Char) : Option (Nat × List Char) :=
  if fence3Len s != 0 then some (3, []) else none

/-- Matcher for `re.sub(r",\s*([\x5d}])", r"\1", raw)`: a comma, optional
whitespace, then a closing bracket or brace; the replacement keeps only the
closer. -/
def tryTrailingComma (_ : Bool) (s : List Char) : Option (Nat × List Char) :=
  match s with
  | ',' :: rest =>
    match rest.dropWhile isPySpace with
    | c :: _ =>
      if c == ']' || c == '}' then
        some (1 + (rest.takeWhile isPySpace).length + 1, [c])
      else none
    | [] => none
  | _ => none

/-- `re.sub(r"^```(?:json)?", "", s, IGNORECASE | MULTILINE)`. -/
def pyReSub1 (s : List Char) : List Char := reScan tryFenceOpen s.length true s

/-- `re.sub(r"```$", "", s, MULTILINE)`. -/
def pyReSub2 (s : List Char) : List Char := reScan tryFenceClose s.length true s

/-- `re.sub(r",\s*([\x5d}])", r"\1", s)`. -/
def pyReSub3 (s : List Char) : List Char := reScan tryTrailingComma s.length true s

/-- `raw.lower().startswith("json")`. -/
def lowerStartsJson : List Char → Bool
  | c1 :: c2 :: c3 :: c4 :: _ =>
    toLowerA c1 == 'j' && toLowerA c2 == 's' && toLowerA c3 == 'o' && toLowerA c4 == 'n'
  | _ => false

/-- Character set of the `lstrip("\n\r ")` applied after removing a leading
`json` marker. -/
def isJsonMarkerPad (c : Char) : Bool := c == '\n' || c == '\r' || c == ' '

/-- `clean_json_text` from recog5.py (recog4.py is identical): strips, removes
markdown fences, removes a leading `json` marker, unescapes quotes, removes
trailing commas before closers, and strips again. -/
def clean_json_text (raw : List Char) : List Char :=
  if raw = [] then raw
  else
    let r1 := pyStrip raw
    let r2 := pyReSub1 r1
    let r3 := pyReSub2 (pyStrip r2)
    let r4 := if lowerStartsJson r3 then (r3.drop 4).dropWhile isJsonMarkerPad else r3
    let r5 := unescapeQuotes r4
    let r6 := pyReSub3 r5
    pyStrip r6

/-! ### Model of Python's `json.loads` (strict mode)

The wizard delegates JSON parsing to the standard library.  We model the
grammar accepted by `json.loads` with default settings: objects, arrays,
strings with the standard escapes, numbers (kept as their lexeme), the
literals `true` / `false` / `null`, and the non-standard constants `NaN`,
`Infinity`, `-Infinity`; duplicate object keys follow last-value-wins dict
semantics.  One modelling restriction: a `\uXXXX` escape denoting an unpaired
surrogate (which CPython would keep as a lone surrogate code unit) is rejected
here, since a Lean `Char` is a Unicode scalar value; no claim exercises that
corner.  Failure (`JSONDecodeError` / fuel exhaustion on absurdly nested
input) is `none`. -/

/-- Parsed JSON value; numbers keep their source lexeme. -/
inductive Json where
  | null : Json
  | bool : Bool → Json
  | num : List Char → Json
  | str : List Char → Json
  | arr : List Json → Json
  | obj : List (List Char × Json) → Json

/-- Python `dict` insertion: update the value in place when the key is
present (keeping first-insertion order), else append. -/
def dictInsert {α : Type} (d : List (List Char × α)) (k : List Char) (v : α) :
    List (List Char × α) :=
  if d.any (fun p => p.1 = k) then d.map (fun p => if p.1 = k then (k, v) else p)
  else d ++ [(k, v)]

/-- Python `dict` lookup (`d.get(k)` / `d[k]`). -/
def dictGet {α : Type} (d : List (List Char × α)) (k : List Char) : Option α :=
  match d with
  | [] => none
  | p :: t => if p.1 = k then some p.2 else dictGet t k

/-- Skip JSON whitespace. -/
def skipWs (s : List Char) : List Char := s.dropWhile isJsonWs

/-- Value of a hex digit. -/
def hexVal (c : Char) : Option Nat :=
  if '0' ≤ c ∧ c ≤ '9' then some (c.toNat - '0'.toNat)
  else if 'a' ≤ c ∧ c ≤ 'f' then some (c.toNat - 'a'.toNat + 10)
  else if 'A' ≤ c ∧ c ≤ 'F' then some (c.toNat - 'A'.toNat + 10)
  else none

/-- Single-character string escapes of JSON. -/
def escChar : Char → Option Char
  | '"' => some '"'
  | '\\' => some '\\'
  | '/' => some '/'
  | 'b' => some (Char.ofNat 8)
  | 'f' => some (Char.ofNat 12)
  | 'n' => some '\n'
  | 'r' => some '\r'
  | 't' => some '\t'
  | _ => none

/-- Parse the body of a JSON string after the opening quote; returns the
decoded content and the remainder after the closing quote.  Strict mode:
unescaped control characters are rejected. -/
def parseStr : List Char → Option (List Char × List Char)
  | [] => none
  | '"' :: rest => some ([], rest)
  | '\\' :: rest =>
    match rest with
    | 'u' :: h1 :: h2 :: h3 :: h4 :: rest2 =>
      match hexVal h1, hexVal h2, hexVal h3, hexVal h4 with
      | some a, some b, some c, some d =>
        let n := ((a * 16 + b) * 16 + c) * 16 + d
        if 0xD800 ≤ n ∧ n ≤ 0xDBFF then
          match rest2 with
          | '\\' :: 'u' :: g1 :: g2 :: g3 :: g4 :: rest3 =>
            match hexVal g1, hexVal g2, hexVal g3, hexVal g4 with
            | some a2, some b2, some c2, some d2 =>
              let m := ((a2 * 16 + b2) * 16 + c2) * 16 + d2
              if 0xDC00 ≤ m ∧ m ≤ 0xDFFF then
                (parseStr rest3).map
                  (fun r => (Char.ofNat (0x10000 + (n - 0xD800) * 0x400 + (m - 0xDC00)) :: r.1, r.2))
              else none
            | _, _, _, _ => none
          | _ => none
        else if 0xDC00 ≤ n ∧ n ≤ 0xDFFF then none
        else (parseStr rest2).map (fun r => (Char.ofNat n :: r.1, r.2))
      | _, _, _, _ => none
    | e :: rest2 =>
      match escChar e with
      | some ec => (parseStr rest2).map (fun r => (ec :: r.1, r.2))
      | none => none
    | [] => none
  | c :: rest =>
    if c.toNat < 0x20 then none
    else (parseStr rest).map (fun r => (c :: r.1, r.2))

/-- Assemble the optional fraction and exponent of a number lexeme
(`(\.\d+)?([eE][-+]?\d+)?` after the integer part). -/
def buildNum (neg intPart rest : List Char) : List Char × List Char :=
  let fr := match rest with
    | '.' :: t =>
      let ds := t.takeWhile isDigitC
      if ds.isEmpty then (([] : List Char), rest) else ('.' :: ds, t.drop ds.length)
    | _ => ([], rest)
  let ex := match fr.2 with
    | e :: t =>
      if e == 'e' || e == 'E' then
        match t with
        | sgn :: t2 =>
          if sgn == '+' || sgn == '-' then
            let ds := t2.takeWhile isDigitC
            if ds.isEmpty then (([] : List Char), fr.2) else (e :: sgn :: ds, t2.drop ds.length)
          else
            let ds := t.takeWhile isDigitC
            if ds.isEmpty then (([] : List Char), fr.2) else (e :: ds, t.drop ds.length)
        | [] => ([], fr.2)
      else ([], fr.2)
    | [] => ([], fr.2)
  (neg ++ intPart ++ fr.1 ++ ex.1, ex.2)

/-- Parse a number lexeme (`-?(?:0|[1-9]\d*)(\.\d+)?([eE][-+]?\d+)?`). -/
def parseNum (s : List Char) : Option (List Char × List Char) :=
  let p := match s with
    | '-' :: t => ((['-'] : List Char), t)
    | _ => ([], s)
  match p.2 with
  | '0' :: t => some (buildNum p.1 ['0'] t)
  | c :: t =>
    if '1' ≤ c ∧ c ≤ '9' then
      let ds := t.takeWhile isDigitC
      some (buildNum p.1 (c :: ds) (t.drop ds.length))
    else none
  | [] => none

/-- Parsing mode: a value, the members of an object (after its first key
position has been reached), or the elements of an array. -/
inductive PMode where
  | value : PMode
  | members : List (List Char × Json) → PMode
  | elems : List Json → PMode

/-- Recursive core of the `json.loads` model, structurally recursive on
fuel.  In `value` mode leading JSON whitespace is skipped, matching the
scanner's behaviour at every value position. -/
def parseCore : Nat → PMode → List Char → Option (Json × List Char)
  | 0, _, _ => none
  | f + 1, PMode.value, s =>
    match skipWs s with
    | [] => none
    | c :: rest =>
      if c = '{' then
        match skipWs rest with
        | '}' :: r2 => some (Json.obj [], r2)
        | r => parseCore f (PMode.members []) r
      else if c = '[' then
        match skipWs rest with
        | ']' :: r2 => some (Json.arr [], r2)
        | r => parseCore f (PMode.elems []) r
      else if c = '"' then
        (parseStr rest).map (fun r => (Json.str r.1, r.2))
      else if c = 't' then
        match rest with
        | 'r' :: 'u' :: 'e' :: r => some (Json.bool true, r)
        | _ => none
      else if c = 'f' then
        match rest with
        | 'a' :: 'l' :: 's' :: 'e' :: r => some (Json.bool false, r)
        | _ => none
      else if c = 'n' then
        match rest with
        | 'u' :: 'l' :: 'l' :: r => some (Json.null, r)
        | _ => none
      else if c = 'N' then
        match rest with
        | 'a' :: 'N' :: r => some (Json.num ['N', 'a', 'N'], r)
        | _ => none
      else if c = 'I' then
        match rest with
        | 'n' :: 'f' :: 'i' :: 'n' :: 'i' :: 't' :: 'y' :: r =>
          some (Json.num "Infinity".data, r)
        | _ => none
      else if c = '-' then
        match rest with
        | 'I' :: 'n' :: 'f' :: 'i' :: 'n' :: 'i' :: 't' :: 'y' :: r =>
          some (Json.num "-Infinity".data, r)
        | _ => (parseNum (c :: rest)).map (fun r => (Json.num r.1, r.2))
      else if isDigitC c then
        (parseNum (c :: rest)).map (fun r => (Json.num r.1, r.2))
      else none
  | f + 1, PMode.members acc, s =>
    match s with
    | '"' :: rest =>
      match parseStr rest with
      | none => none
      | some (key, r1) =>
        match skipWs r1 with
        | ':' :: r2 =>
          match parseCore f PMode.value r2 with
          | none => none
          | some (v, r3) =>
            match skipWs r3 with
            | ',' :: r4 => parseCore f (PMode.members (dictInsert acc key v)) (skipWs r4)
            | '}' :: r4 => some (Json.obj (dictInsert acc key v), r4)
            | _ => none
        | _ => none
    | _ => none
  | f + 1, PMode.elems acc, s =>
    match parseCore f PMode.value s with
    | none => none
    | some (v, r) =>
      match skipWs r with
      | ',' :: r2 => parseCore f (PMode.elems (acc ++ [v])) (skipWs r2)
      | ']' :: r2 => some (Json.arr (acc ++ [v]), r2)
      | _ => none

/-- Model of `json.loads`: parse one value, allow trailing whitespace,
reject extra data; `none` models a raised `JSONDecodeError`. -/
def json_loads (s : List Char) : Option Json :=
  match parseCore (2 * s.length + 2) PMode.value s with
  | some (v, rest) => if skipWs rest = [] then some v else none
  | none => none

/-- Python exceptions relevant to `parse_gemini_json`.  The message text of a
`JSONDecodeError` (position information) is abstracted to a fixed prefix. -/
inductive PyErr where
  | valueError : List Char → PyErr
  | jsonDecodeError : PyErr

/-- `str(e)` for the modelled exceptions. -/
def pyErrMsg : PyErr → List Char
  | PyErr.valueError m => m
  | PyErr.jsonDecodeError => "Expecting value".data

/-- `parse_gemini_json` from recog5.py (recog4.py is identical): strip, fail
on empty input, try a direct parse, then parse the cleaned text once; a
second failure propagates the decode error. -/
def parse_gemini_json (raw_text : List Char) : Except PyErr Json :=
  let raw := pyStrip raw_text
  if raw = [] then Except.error (PyErr.valueError "Empty Gemini response".data)
  else
    match json_loads raw with
    | some v => Except.ok v
    | none =>
      match json_loads (clean_json_text raw) with
      | some v => Except.ok v
      | none => Except.error PyErr.jsonDecodeError

/-! ### Planning-phase parse branches (recog4.py 151-176, recog5.py 154-166)

Each branch receives the gateway response text; what it renders on parse
failure is captured by `ErrorRender`: the error messages, the raw texts
displayed verbatim in code blocks (`st.code`), and whether a manual retry
button is offered. -/

/-- What a failure branch renders. -/
structure ErrorRender where
  messages : List (List Char)
  codeBlocks : List (List Char)
  retryButton : Bool

/-- Outcome of a planning-phase gateway interaction: either the parsed
structured response is cached, or a failure is rendered. -/
inductive PhaseStepResult where
  | cached : Json → PhaseStepResult
  | failed : ErrorRender → PhaseStepResult

/-- recog4.py lines 157-173: strip the response text, error out on empty
text, parse; on failure show the raw text with `st.code` and offer the
"Retry Planning" button. -/
def recog4_planning_parse (respText : List Char) : PhaseStepResult :=
  let raw_text := pyStrip respText
  if raw_text.isEmpty then
    PhaseStepResult.failed ⟨["❌ Gemini returned an empty response.".data], [], false⟩
  else
    match parse_gemini_json raw_text with
    | Except.ok parsed => PhaseStepResult.cached parsed
    | Except.error _ =>
      PhaseStepResult.failed
        ⟨["⚠️ Gemini returned invalid JSON after repair:".data], [raw_text], true⟩

/-- recog5.py lines 154-166: strip the response text and parse; any
exception is caught and rendered as a single error message containing only
`str(e)` — the raw text is not displayed and no retry control exists. -/
def recog5_planning_parse (respText : List Char) : PhaseStepResult :=
  let raw_text := pyStrip respText
  match parse_gemini_json raw_text with
  | Except.ok parsed => PhaseStepResult.cached parsed
  | Except.error e =>
    PhaseStepResult.failed
      ⟨["⚠️ Gemini returned invalid JSON or error: ".data ++ pyErrMsg e], [], false⟩

/-! ### The wizard phase state machine (recog5.py)

State is the relevant slice of `st.session_state`; events are the user
actions and gateway outcomes that mutate it.  A button event fires only when
the script would actually render that button (its `if` context), otherwise it
is a no-op on the state. -/

/-- The five wizard phases. -/
inductive Phase where
  | collect : Phase
  | planning : Phase
  | designing : Phase
  | finalize : Phase
  | generate : Phase
deriving DecidableEq

/-- Position of a phase along the wizard's forward order. -/
def phaseIdx : Phase → Nat
  | Phase.collect => 0
  | Phase.planning => 1
  | Phase.designing => 2
  | Phase.finalize => 3
  | Phase.generate => 4

/-- Python truthiness of a parsed JSON value (`if not response:`). -/
def jsonTruthy : Json → Bool
  | Json.null => false
  | Json.bool b => b
  | Json.str s => !s.isEmpty
  | Json.arr l => !l.isEmpty
  | Json.obj m => !m.isEmpty
  | Json.num lx =>
    let mantissa := (lx.takeWhile (fun c => !(c == 'e' || c == 'E'))).filter isDigitC
    if mantissa.isEmpty then true else !mantissa.all (fun c => c == '0')

/-- Truthiness of a cached response slot (`None` is falsy). -/
def respTruthy : Option Json → Bool
  | none => false
  | some j => jsonTruthy j

/-- The wizard slice of `st.session_state` (recog5.py `init_state`). -/
structure WizardState where
  phase : Phase
  planning_response : Option Json
  design_response : Option Json
  generated_code : Option (List Char)

/-- `init_state()` defaults. -/
def init_state : WizardState :=
  { phase := Phase.collect, planning_response := none,
    design_response := none, generated_code := none }

/-- User actions and gateway outcomes that mutate the wizard state. -/
inductive WizardEvent where
  | startPlanning : WizardEvent
  | planningParsed : Json → WizardEvent
  | confirmPlanning : WizardEvent
  | designParsed : Json → WizardEvent
  | confirmDesign : WizardEvent
  | generateProject : WizardEvent
  | codeGenerated : List Char → WizardEvent
  | reset : WizardEvent

/-- One step of the recog5.py wizard.  Guards mirror the rendering context of
each control: "Start Planning Phase" exists only in `collect`; a planning
request is issued only in `planning` with no truthy cached response and its
success caches the parsed value; "Confirm Planning → Designing" is rendered
only in `planning` when the cached response is truthy; the design phase is
analogous; "Generate Streamlit Project" is rendered in `finalize`; code
generation happens in `generate` when no code is cached; "Reset Project" /
"Start New Project" delete the whole session state and re-run `init_state`. -/
def wizardStep (s : WizardState) (e : WizardEvent) : WizardState :=
  match e with
  | WizardEvent.startPlanning =>
    if s.phase = Phase.collect then { s with phase := Phase.planning } else s
  | WizardEvent.planningParsed j =>
    if s.phase = Phase.planning ∧ respTruthy s.planning_response = false then
      { s with planning_response := some j } else s
  | WizardEvent.confirmPlanning =>
    if s.phase = Phase.planning ∧ respTruthy s.planning_response = true then
      { s with phase := Phase.designing } else s
  | WizardEvent.designParsed j =>
    if s.phase = Phase.designing ∧ respTruthy s.design_response = false then
      { s with design_response := some j } else s
  | WizardEvent.confirmDesign =>
    if s.phase = Phase.designing ∧ respTruthy s.design_response = true then
      { s with phase := Phase.finalize } else s
  | WizardEvent.generateProject =>
    if s.phase = Phase.finalize then { s with phase := Phase.generate } else s
  | WizardEvent.codeGenerated code =>
    if s.phase = Phase.generate ∧ s.generated_code.isNone then
      { s with generated_code := some code } else s
  | WizardEvent.reset =>
    if s.phase ≠ Phase.collect then init_state else s

/-! ### Project packaging (recog5.py `zip_project`, lines 47-55, and the
project-file assembly, lines 300-306) -/

/-- A packaged file: generated text or uploaded raw bytes.  (`zip_project`
branches on `isinstance(content, str)` but performs the same `writestr`
call in both branches.) -/
inductive FileContent where
  | text : List Char → FileContent
  | binary : List Nat → FileContent

/-- The archive produced by `zip_project`: `zipfile.ZipFile(path, "w")`
creates a fresh archive at `path` (mode `'w'` = overwrite), and every
`files_dict` item is written verbatim in iteration order. -/
structure ZipArchive where
  path : List Char
  mode : Char
  entries : List (List Char × FileContent)

/-- `zip_project` from recog5.py. -/
def zip_project (files_dict : List (List Char × FileContent)) : ZipArchive :=
  { path := "generated_project.zip".data
    mode := 'w'
    entries := files_dict.foldl (fun acc p => acc ++ [(p.1, p.2)]) [] }

/-- An uploaded file as stored in the session
(`{"name": f.name, "type": f.type, "bytes": f.read()}`). -/
structure UploadedFile where
  name : List Char
  type : List Char
  bytes : List Nat

/-- recog5.py lines 300-306: the packaged file set starts from the generated
app and a fixed README and then inserts every uploaded file under its name. -/
def assembleProjectFiles (code : List Char) (uploads : List UploadedFile) :
    List (List Char × FileContent) :=
  uploads.foldl (fun files f => dictInsert files f.name (FileContent.binary f.bytes))
    [("generated_app.py".data, FileContent.text code),
     ("README.md".data,
      FileContent.text "# Auto-generated Streamlit Project\nCreated via Gemini Project Maker (Advanced Edition).".data)]

/-- The last upload carrying a given name, if any. -/
def lastNamed (uploads : List UploadedFile) (n : List Char) : Option UploadedFile :=
  (uploads.filter (fun f => f.name = n)).getLast?

/-- recog5.py lines 90-98: a non-empty uploader result *assigns*
`st.session_state.uploaded_files`, replacing whatever was stored; an empty
(falsy) result leaves the stored list unchanged. -/
def fileUploadHandler (prev : List UploadedFile) (uploaded : List UploadedFile) :
    List UploadedFile :=
  if uploaded.isEmpty then prev
  else uploaded.map (fun f => { name := f.name, type := f.type, bytes := f.bytes })

/-! ### Chat handlers (recog.py and recog3.py) -/

/-- One part of a gateway request: the text prompt or an attached image
(`types.Part.from_bytes(data, mime_type)`). -/
inductive ReqPart where
  | textPart : List Char → ReqPart
  | imagePart : List Nat → List Char → ReqPart

/-- What one click handler renders and sends. -/
structure HandlerRender where
  warnings : List (List Char)
  infos : List (List Char)
  request : Option (List ReqPart)

/-- A rasterized PDF page as produced by the external `pdf2image` /
`PIL` libraries; `jpeg` is its JPEG encoding. -/
structure PILImage where
  jpeg : List Nat

/-- recog3.py `image_to_bytes`: save the PIL image as JPEG. -/
def image_to_bytes (img : PILImage) : List Nat := img.jpeg

/-- recog3.py `pdf_to_images`: delegate to `pdf2image.convert_from_bytes`
(passed in as the external rasterizer). -/
def pdf_to_images (convert_from_bytes : List Nat → List PILImage)
    (pdf_bytes : List Nat) : List PILImage :=
  convert_from_bytes pdf_bytes

/-- recog.py lines 39-55, the "Generate Answer" click: with no image bytes,
warn and do nothing; otherwise send `[prompt, image_part]`. -/
def recogGenerateAnswer (image_bytes : Option (List Nat)) (prompt : List Char) :
    HandlerRender :=
  match image_bytes with
  | none => ⟨["Please upload or provide an image URL first.".data], [], none⟩
  | some b => ⟨[], [], some [ReqPart.textPart prompt, ReqPart.imagePart b "image/jpeg".data]⟩

/-- An upload as seen by recog3.py (declared type and raw bytes). -/
structure Uploaded3 where
  type : List Char
  bytes : List Nat

/-- recog3.py lines 67-117, the "Analyze with Gemini" click:
`content_parts` starts as `[prompt]`; an uploaded image or the pages of an
uploaded PDF (or a URL image) are appended; without any attachment the
handler shows an *info* about text-only mode and still sends the request. -/
def recog3Analyze (convert_from_bytes : List Nat → List PILImage)
    (uploaded_file : Option Uploaded3) (url_bytes : Option (List Nat))
    (prompt : List Char) : HandlerRender :=
  match uploaded_file with
  | some f =>
    if f.type = "image/jpeg".data ∨ f.type = "image/png".data then
      ⟨[], [], some [ReqPart.textPart prompt, ReqPart.imagePart f.bytes f.type]⟩
    else if f.type = "application/pdf".data then
      let pages := pdf_to_images convert_from_bytes f.bytes
      ⟨[], ["Processing PDF pages into images...".data],
        some (ReqPart.textPart prompt ::
          pages.map (fun p => ReqPart.imagePart (image_to_bytes p) "image/jpeg".data))⟩
    else ⟨[], [], some [ReqPart.textPart prompt]⟩
  | none =>
    match url_bytes with
    | some b => ⟨[], [], some [ReqPart.textPart prompt, ReqPart.imagePart b "image/jpeg".data]⟩
    | none =>
      ⟨[], ["💬 Text-only question mode (no image or document attached).".data],
        some [ReqPart.textPart prompt]⟩

/-- A JSON payload wrapped in a fenced code block tagged `json`, the raw
gateway shape considered by the normalizer spec. -/
def fenceWrap (c : List Char) : List Char :=
  "```json\n".data ++ c ++ "\n```".data

/-- The `atStart` flag after scanning past `pre` (line start iff the last
scanned character was a newline; unchanged when nothing was scanned). -/
def flagAfter (b : Bool) (pre : List Char) : Bool :=
  match pre.getLast? with
  | some ch => ch == '\n'
  | none => b

/-! ## Helper lemmas about `str.strip` -/

theorem trimL_cons (c : Char) (s : List Char) :
    trimL (c :: s) = if isPySpace c then trimL s else c :: s := by
  simp [trimL, List.dropWhile_cons]

theorem trimL_idem (l : List Char) : trimL (trimL l) = trimL l := by
  induction l with
  | nil => rfl
  | cons c t ih =>
    by_cases hc : isPySpace c
    · rw [trimL_cons, if_pos hc, ih]
    · rw [trimL_cons, if_neg hc, trimL_cons, if_neg hc]

theorem trimR_cons (c : Char) (t : List Char) :
    trimR (c :: t) = if (trimR t).isEmpty && isPySpace c then [] else c :: trimR t := rfl

theorem trimR_eq_nil_trimL (l : List Char) (h : trimR l = []) : trimL l = [] := by
  induction l with
  | nil => rfl
  | cons c t ih =>
    rw [trimR_cons] at h
    by_cases hcond : (trimR t).isEmpty && isPySpace c
    · have ht : trimR t = [] := by
        rcases Bool.and_eq_true_iff.mp hcond with ⟨h1, _⟩
        simpa [List.isEmpty_iff] using h1
      have hc : isPySpace c := (Bool.and_eq_true_iff.mp hcond).2
      rw [trimL_cons, if_pos hc]
      exact ih ht
    · rw [if_neg hcond] at h
      exact absurd h (by simp)

theorem trimL_trimR_comm (l : List Char) : trimL (trimR l) = trimR (trimL l) := by
  induction l with
  | nil => rfl
  | cons c t ih =>
    by_cases hc : isPySpace c
    · rw [trimL_cons, if_pos hc]
      by_cases ht : trimR t = []
      · have h0 : trimR (c :: t) = [] := by
          rw [trimR_cons, if_pos (by simp [ht, hc])]
        rw [h0]
        have := ih
        rw [ht] at this
        simpa [trimL] using this.symm ▸ rfl
      · have h1 : trimR (c :: t) = c :: trimR t := by
          rw [trimR_cons, if_neg (by simp [List.isEmpty_iff, ht])]
        rw [h1, trimL_cons, if_pos hc, ih]
    · rw [trimL_cons, if_neg hc]
      have h1 : trimR (c :: t) = c :: trimR t := by
        rw [trimR_cons, if_neg (by simp [hc])]
      rw [h1, trimL_cons, if_neg hc]

theorem trimR_idem (l : List Char) : trimR (trimR l) = trimR l := by
  induction l with
  | nil => rfl
  | cons c t ih =>
    by_cases hcond : (trimR t).isEmpty && isPySpace c
    · rw [trimR_cons, if_pos hcond]
      rfl
    · rw [trimR_cons, if_neg hcond, trimR_cons, ih, if_neg hcond]

theorem pyStrip_idem (s : List Char) : pyStrip (pyStrip s) = pyStrip s := by
  show trimR (trimL (trimR (trimL s))) = trimR (trimL s)
  rw [← trimL_trimR_comm, trimR_idem, trimL_trimR_comm, trimL_idem]

theorem trimR_append_ws (l : List Char) (w : Char) (hw : isPySpace w) :
    trimR (l ++ [w]) = trimR l := by
  induction l with
  | nil => simp [trimR, hw]
  | cons c t ih =>
    rw [List.cons_append, trimR_cons, ih, trimR_cons]

theorem trimR_append_nonws (l : List Char) (c : Char) (hc : ¬ isPySpace c) :
    trimR (l ++ [c]) = l ++ [c] := by
  induction l with
  | nil => simp [trimR, hc]
  | cons x t ih =>
    rw [List.cons_append, trimR_cons, ih]
    rw [if_neg (by simp [List.isEmpty_iff])]

theorem pyStrip_sandwich (s : List Char) (a b : Char)
    (ha : isPySpace a) (hb : isPySpace b) :
    pyStrip (a :: (s ++ [b])) = pyStrip s := by
  show trimR (trimL (a :: (s ++ [b]))) = trimR (trimL s)
  rw [trimL_cons, if_pos ha, ← trimL_trimR_comm, trimR_append_ws _ _ hb,
    trimL_trimR_comm]

theorem pyStrip_ends_nonws (m : List Char) (a b : Char)
    (ha : ¬ isPySpace a) (hb : ¬ isPySpace b) :
    pyStrip (a :: (m ++ [b])) = a :: (m ++ [b]) := by
  show trimR (trimL (a :: (m ++ [b]))) = a :: (m ++ [b])
  rw [trimL_cons, if_neg ha, show a :: (m ++ [b]) = (a :: m) ++ [b] from rfl,
    trimR_append_nonws _ _ hb]

theorem mem_of_mem_trimL {a : Char} {l : List Char} (h : a ∈ trimL l) : a ∈ l := by
  induction l with
  | nil => simpa [trimL] using h
  | cons c t ih =>
    rw [trimL_cons] at h
    by_cases hc : isPySpace c
    · rw [if_pos hc] at h
      exact List.mem_cons_of_mem c (ih h)
    · rwa [if_neg hc] at h

theorem mem_of_mem_trimR {a : Char} {l : List Char} (h : a ∈ trimR l) : a ∈ l := by
  induction l with
  | nil => simpa [trimR] using h
  | cons c t ih =>
    rw [trimR_cons] at h
    by_cases hcond : (trimR t).isEmpty && isPySpace c
    · rw [if_pos hcond] at h
      simp at h
    · rw [if_neg hcond] at h
      rcases List.mem_cons.mp h with h | h
      · exact h ▸ List.mem_cons_self _ _
      · exact List.mem_cons_of_mem c (ih h)

theorem mem_of_mem_pyStrip {a : Char} {l : List Char} (h : a ∈ pyStrip l) : a ∈ l :=
  mem_of_mem_trimL (mem_of_mem_trimR h)

/-! ## Helper lemmas about the quote-unescape replacement -/

theorem ws_ne_backslash {c : Char} (h : isPySpace c = true) : (c == '\\') = false := by
  simp only [isPySpace, Bool.or_eq_true, beq_iff_eq] at h
  rcases h with ((((h | h) | h) | h) | h) | h <;> subst h <;> rfl

theorem unescQGo_of_no_esc (s : List Char) :
    (hasEscQGo false s = false → unescQGo none s = s) ∧
    (hasEscQGo true s = false → unescQGo (some '\\') s = '\\' :: s) := by
  induction s with
  | nil => exact ⟨fun _ => rfl, fun _ => rfl⟩
  | cons c rest ih =>
    constructor
    · intro h
      by_cases hc : c = '\\'
      · subst hc
        simp only [hasEscQGo] at h
        simp only [unescQGo, beq_self_eq_true, if_pos]
        exact ih.2 (by simpa using h)
      · have hcb : (c == '\\') = false := by simpa using hc
        simp only [hasEscQGo, hcb] at h
        simp only [unescQGo, hcb, Bool.false_eq_true, if_false]
        rw [ih.1 h]
    · intro h
      by_cases hq : c = '"'
      · subst hq
        simp [hasEscQGo] at h
      · have hqb : (c == '"') = false := by simpa using hq
        simp only [hasEscQGo, hqb, Bool.false_eq_true, if_false] at h
        by_cases hc : c = '\\'
        · subst hc
          simp only [unescQGo, hqb, Bool.false_eq_true, if_false,
            beq_self_eq_true, if_pos]
          rw [ih.2 (by simpa using h)]
        · have hcb : (c == '\\') = false := by simpa using hc
          simp only [unescQGo, hqb, hcb, Bool.false_eq_true, if_false]
          rw [ih.1 (by simpa [hcb] using h)]

theorem unescapeQuotes_of_no_esc {s : List Char} (h : hasEscQuote s = false) :
    unescapeQuotes s = s :=
  (unescQGo_of_no_esc s).1 h

theorem hasEscQGo_false_of_tail {c : Char} {t : List Char} {b : Bool}
    (h : hasEscQGo b (c :: t) = false) : hasEscQGo (c == '\\') t = false := by
  cases b with
  | false => simpa [hasEscQGo] using h
  | true =>
    by_cases hq : c = '"'
    · subst hq; simp [hasEscQGo] at h
    · have hqb : (c == '"') = false := by simpa using hq
      simpa [hasEscQGo, hqb] using h

theorem hasEscQGo_trimL {l : List Char} (h : hasEscQGo false l = false) :
    hasEscQGo false (trimL l) = false := by
  induction l with
  | nil => simpa [trimL] using h
  | cons c t ih =>
    rw [trimL_cons]
    by_cases hc : isPySpace c
    · rw [if_pos hc]
      have ht : hasEscQGo (c == '\\') t = false := hasEscQGo_false_of_tail h
      rw [ws_ne_backslash hc] at ht
      exact ih ht
    · rw [if_neg hc]; exact h

theorem hasEscQGo_trimR {l : List Char} :
    ∀ b, hasEscQGo b l = false → hasEscQGo b (trimR l) = false := by
  induction l with
  | nil => intro b h; simpa [trimR] using h
  | cons c t ih =>
    intro b h
    rw [trimR_cons]
    by_cases hcond : (trimR t).isEmpty && isPySpace c
    · rw [if_pos hcond]; cases b <;> rfl
    · rw [if_neg hcond]
      have ht : hasEscQGo (c == '\\') t = false := hasEscQGo_false_of_tail h
      have ht' : hasEscQGo (c == '\\') (trimR t) = false := ih _ ht
      cases b with
      | false => simpa [hasEscQGo] using ht'
      | true =>
        have hq : (c == '"') = false := by
          by_contra hq
          have : c = '"' := by simpa using Bool.of_not_eq_false hq
          subst this
          simp [hasEscQGo] at h
        simpa [hasEscQGo, hq] using ht'

theorem hasEscQuote_pyStrip {l : List Char} (h : hasEscQuote l = false) :
    hasEscQuote (pyStrip l) = false :=
  hasEscQGo_trimR false (hasEscQGo_trimL h)

/-! ## Helper lemmas about the `re.sub` scanner -/

theorem reScan_nil (tryM : Bool → List Char → Option (Nat × List Char))
    (f : Nat) (b : Bool) : reScan tryM f b [] = [] := by
  cases f <;> rfl

theorem reScan_cons_none (tryM : Bool → List Char → Option (Nat × List Char))
    {f : Nat} {b : Bool} {c : Char} {rest : List Char}
    (h : tryM b (c :: rest) = none) (hf : 0 < f) :
    reScan tryM f b (c :: rest) = c :: reScan tryM (f - 1) (c == '\n') rest := by
  cases f with
  | zero => omega
  | succ f => simp [reScan, h]

theorem reScan_cons_some (tryM : Bool → List Char → Option (Nat × List Char))
    {f : Nat} {b : Bool} {c : Char} {rest : List Char} {n : Nat} {repl : List Char}
    (h : tryM b (c :: rest) = some (n, repl)) (hf : 0 < f) :
    reScan tryM f b (c :: rest) =
      repl ++ reScan tryM (f - 1) ((((c :: rest).take n).getLastD 'x') == '\n')
        ((c :: rest).drop n) := by
  cases f with
  | zero => omega
  | succ f => simp [reScan, h]

theorem flagAfter_cons (b : Bool) (c : Char) (pre : List Char) :
    flagAfter b (c :: pre) = flagAfter (c == '\n') pre := by
  cases pre with
  | nil => rfl
  | cons d t =>
    show flagAfter b (c :: d :: t) = flagAfter (c == '\n') (d :: t)
    unfold flagAfter
    rw [List.getLast?_cons_cons]
    cases hg : (d :: t).getLast? with
    | none => simp at hg
    | some ch => rfl

theorem reScan_append_none (tryM : Bool → List Char → Option (Nat × List Char))
    (P : Char → Prop)
    (hM : ∀ (b : Bool) (c : Char) (t : List Char), P c → tryM b (c :: t) = none) :
    ∀ (pre suffix : List Char) (f : Nat) (b : Bool),
      (∀ c ∈ pre, P c) → (pre ++ suffix).length ≤ f →
      reScan tryM f b (pre ++ suffix) =
        pre ++ reScan tryM (f - pre.length) (flagAfter b pre) suffix := by
  intro pre
  induction pre with
  | nil => intro suffix f b _ _; simp [flagAfter]
  | cons c pre ih =>
    intro suffix f b hP hf
    cases f with
    | zero => simp at hf
    | succ f =>
      have hf' : (pre ++ suffix).length ≤ f := by
        simp only [List.cons_append, List.length_cons, List.length_append] at hf
        simp only [List.length_append]
        omega
      rw [List.cons_append,
        reScan_cons_none tryM (hM b c _ (hP c (List.mem_cons_self c pre))) (Nat.succ_pos f)]
      have h1 : f + 1 - 1 = f := by omega
      rw [h1, ih suffix f (c == '\n') (fun x hx => hP x (List.mem_cons_of_mem c hx)) hf']
      rw [flagAfter_cons, List.cons_append, List.length_cons]
      have h2 : f + 1 - (pre.length + 1) = f - pre.length := by omega
      rw [h2]

theorem fenceLen_eq_zero {ch : Char} {t : List Char} (h : ch ≠ '`') :
    fenceLen (ch :: t) = 0 := by
  unfold fenceLen
  split <;> simp_all

theorem fence3Len_eq_zero {ch : Char} {t : List Char} (h : ch ≠ '`') :
    fence3Len (ch :: t) = 0 := by
  unfold fence3Len
  split <;> simp_all

theorem tryFenceOpen_eq_none {b : Bool} {ch : Char} {t : List Char} (h : ch ≠ '`') :
    tryFenceOpen b (ch :: t) = none := by
  simp [tryFenceOpen, fenceLen_eq_zero h]

theorem tryFenceClose_eq_none {b : Bool} {ch : Char} {t : List Char} (h : ch ≠ '`') :
    tryFenceClose b (ch :: t) = none := by
  simp [tryFenceClose, fence3Len_eq_zero h]

theorem pyReSub1_id {s : List Char} (h : '`' ∉ s) : pyReSub1 s = s := by
  have h2 := reScan_append_none tryFenceOpen (fun c => c ≠ '`')
    (fun b c t hc => tryFenceOpen_eq_none hc) s [] s.length true
    (fun c hc he => h (he ▸ hc)) (by simp)
  simpa [pyReSub1, reScan_nil] using h2

theorem pyReSub2_id {s : List Char} (h : '`' ∉ s) : pyReSub2 s = s := by
  have h2 := reScan_append_none tryFenceClose (fun c => c ≠ '`')
    (fun b c t hc => tryFenceClose_eq_none hc) s [] s.length true
    (fun c hc he => h (he ▸ hc)) (by simp)
  simpa [pyReSub2, reScan_nil] using h2

theorem pyReSub1_fence (c : List Char) (hbt : '`' ∉ c) :
    pyReSub1 (fenceWrap c) = '\n' :: (c ++ ['\n']) := by
  have hW : fenceWrap c =
      '`' :: '`' :: '`' :: 'j' :: 's' :: 'o' :: 'n' :: '\n' ::
        (c ++ ['\n', '`', '`', '`']) := rfl
  unfold pyReSub1
  rw [hW]
  have hL : ('`' :: '`' :: '`' :: 'j' :: 's' :: 'o' :: 'n' :: '\n' ::
      (c ++ ['\n', '`', '`', '`'])).length = c.length + 12 := by
    simp only [List.length_cons, List.length_append, List.length_nil]
    try omega
  rw [hL]
  have h1 : tryFenceOpen true ('`' :: '`' :: '`' :: 'j' :: 's' :: 'o' :: 'n' :: '\n' ::
      (c ++ ['\n', '`', '`', '`'])) = some (7, []) := rfl
  rw [reScan_cons_some tryFenceOpen h1 (by omega)]
  have htake : ((('`' :: '`' :: '`' :: 'j' :: 's' :: 'o' :: 'n' :: '\n' ::
      (c ++ ['\n', '`', '`', '`'])).take 7).getLastD 'x' == '\n') = false := rfl
  have hdrop : ('`' :: '`' :: '`' :: 'j' :: 's' :: 'o' :: 'n' :: '\n' ::
      (c ++ ['\n', '`', '`', '`'])).drop 7 = '\n' :: (c ++ ['\n', '`', '`', '`']) := rfl
  rw [htake, hdrop, List.nil_append]
  have e1 : c.length + 12 - 1 = c.length + 11 := by omega
  rw [e1]
  have h2 : tryFenceOpen false ('\n' :: (c ++ ['\n', '`', '`', '`'])) = none := rfl
  rw [reScan_cons_none tryFenceOpen h2 (by omega)]
  have e2 : c.length + 11 - 1 = c.length + 10 := by omega
  rw [e2]
  have h3 := reScan_append_none tryFenceOpen (fun x => x ≠ '`')
    (fun b ch t hc => tryFenceOpen_eq_none hc) c ['\n', '`', '`', '`']
    (c.length + 10) ('\n' == '\n') (fun x hx he => hbt (he ▸ hx))
    (by simp only [List.length_append, List.length_cons, List.length_nil]; try omega)
  have e3 : c.length + 10 - c.length = 10 := by omega
  rw [e3] at h3
  rw [h3]
  have h4 : reScan tryFenceOpen 10 (flagAfter ('\n' == '\n') c) ['\n', '`', '`', '`'] =
      ['\n'] := by
    rw [reScan_cons_none tryFenceOpen (tryFenceOpen_eq_none (by decide)) (by omega)]
    have h5 : tryFenceOpen ('\n' == '\n') ['`', '`', '`'] = some (3, []) := rfl
    rw [show (10 : Nat) - 1 = 9 from rfl,
      reScan_cons_some tryFenceOpen h5 (by omega)]
    simp [reScan_nil]
  rw [h4]

/-! ## Helper lemmas about the JSON parser -/

theorem parseCore_value_cons_backtick (f : Nat) (s : List Char) :
    parseCore (f + 1) PMode.value ('`' :: s) = none := by
  have hws : skipWs ('`' :: s) = '`' :: s := by
    simp [skipWs, List.dropWhile_cons, isJsonWs]
  simp [parseCore, hws, isDigitC]

theorem json_loads_cons_backtick (s : List Char) : json_loads ('`' :: s) = none := by
  unfold json_loads
  have h : 2 * (('`' :: s).length) + 2 = (2 * s.length + 3) + 1 := by
    simp [List.length_cons]; try omega
  rw [h, parseCore_value_cons_backtick]

theorem json_loads_nil : json_loads [] = none := rfl

theorem lowerStartsJson_brace (t : List Char) : lowerStartsJson ('{' :: t) = false := by
  rcases t with _ | ⟨a, _ | ⟨b, _ | ⟨d, t3⟩⟩⟩ <;> rfl

/-! ## Helper lemmas about dict insertion and the project-file fold -/

theorem dictGet_map_insert {α : Type} (d : List (List Char × α)) (k : List Char) (v : α)
    (h : d.any (fun p => p.1 = k) = true) :
    dictGet (d.map (fun p => if p.1 = k then (k, v) else p)) k = some v := by
  induction d with
  | nil => simp at h
  | cons p t ih =>
    by_cases hp : p.1 = k
    · simp only [List.map_cons, if_pos hp]
      show dictGet ((k, v) :: _) k = some v
      simp [dictGet]
    · simp only [List.map_cons, if_neg hp]
      show dictGet (p :: _) k = some v
      rw [dictGet, if_neg hp]
      refine ih ?_
      rw [List.any_cons] at h
      rcases Bool.or_eq_true_iff.mp h with h1 | h1
      · exact absurd (of_decide_eq_true h1) hp
      · exact h1

theorem dictGet_append_single_eq {α : Type} (d : List (List Char × α)) (k : List Char)
    (v : α) (h : ∀ p ∈ d, p.1 ≠ k) :
    dictGet (d ++ [(k, v)]) k = some v := by
  induction d with
  | nil => simp [dictGet]
  | cons p t ih =>
    rw [List.cons_append, dictGet, if_neg (h p (List.mem_cons_self p t))]
    exact ih (fun q hq => h q (List.mem_cons_of_mem p hq))

theorem dictGet_dictInsert_eq {α : Type} (d : List (List Char × α)) (k : List Char) (v : α) :
    dictGet (dictInsert d k v) k = some v := by
  unfold dictInsert
  by_cases h : d.any (fun p => p.1 = k)
  · rw [if_pos h]
    exact dictGet_map_insert d k v h
  · rw [if_neg h]
    refine dictGet_append_single_eq d k v ?_
    intro p hp he
    exact h (List.any_eq_true.mpr ⟨p, hp, decide_eq_true he⟩)

theorem dictGet_dictInsert_ne {α : Type} (d : List (List Char × α)) (k k' : List Char)
    (v : α) (h : k ≠ k') :
    dictGet (dictInsert d k v) k' = dictGet d k' := by
  unfold dictInsert
  by_cases ha : d.any (fun p => p.1 = k)
  · rw [if_pos ha]
    clear ha
    induction d with
    | nil => rfl
    | cons p t ih =>
      by_cases hp : p.1 = k
      · simp only [List.map_cons, if_pos hp]
        show dictGet ((k, v) :: _) k' = _
        rw [dictGet, if_neg h, dictGet, if_neg (hp ▸ h : p.1 ≠ k')]
        exact ih
      · simp only [List.map_cons, if_neg hp]
        show dictGet (p :: _) k' = _
        rw [dictGet, dictGet]
        by_cases hk' : p.1 = k'
        · rw [if_pos hk', if_pos hk']
        · rw [if_neg hk', if_neg hk']
          exact ih
  · rw [if_neg ha]
    clear ha
    induction d with
    | nil => simp [dictGet, if_neg h]
    | cons p t ih =>
      rw [List.cons_append, dictGet, dictGet]
      by_cases hk' : p.1 = k'
      · rw [if_pos hk', if_pos hk']
      · rw [if_neg hk', if_neg hk']
        exact ih

theorem foldl_writestr_eq (l : List (List Char × FileContent)) :
    ∀ acc : List (List Char × FileContent),
      l.foldl (fun acc p => acc ++ [(p.1, p.2)]) acc = acc ++ l := by
  induction l with
  | nil => intro acc; simp
  | cons p t ih =>
    intro acc
    show t.foldl _ (acc ++ [(p.1, p.2)]) = acc ++ (p :: t)
    rw [ih]
    simp

theorem foldl_dictInsert_get (ups : List UploadedFile) :
    ∀ (base : List (List Char × FileContent)) (n : List Char),
      dictGet (ups.foldl
          (fun files f => dictInsert files f.name (FileContent.binary f.bytes)) base) n =
        match lastNamed ups n with
        | some f => some (FileContent.binary f.bytes)
        | none => dictGet base n := by
  induction ups with
  | nil => intro base n; simp [lastNamed]
  | cons f rest ih =>
    intro base n
    show dictGet (rest.foldl _ (dictInsert base f.name (FileContent.binary f.bytes))) n = _
    rw [ih]
    by_cases hf : f.name = n
    · cases hrest : lastNamed rest n with
      | some g =>
        have h1 : lastNamed (f :: rest) n = some g := by
          unfold lastNamed at hrest ⊢
          rw [List.filter_cons_of_pos (by simpa using hf)]
          cases hfil : List.filter (fun x => decide (x.name = n)) rest with
          | nil => rw [hfil] at hrest; simp at hrest
          | cons a l =>
            rw [hfil] at hrest
            rw [List.getLast?_cons_cons]
            exact hrest
        rw [h1]
      | none =>
        have hfil : List.filter (fun x => decide (x.name = n)) rest = [] := by
          unfold lastNamed at hrest
          cases hfil : List.filter (fun x => decide (x.name = n)) rest with
          | nil => rfl
          | cons a l =>
            rw [hfil] at hrest
            exact absurd hrest (by simp [List.getLast?])
        have h1 : lastNamed (f :: rest) n = some f := by
          unfold lastNamed
          rw [List.filter_cons_of_pos (by simpa using hf), hfil]
          rfl
        rw [h1]
        show dictGet (dictInsert base f.name (FileContent.binary f.bytes)) n =
          some (FileContent.binary f.bytes)
        rw [hf]
        exact dictGet_dictInsert_eq base n (FileContent.binary f.bytes)
    · have h1 : lastNamed (f :: rest) n = lastNamed rest n := by
        unfold lastNamed
        rw [List.filter_cons_of_neg (by simpa using hf)]
      rw [h1]
      cases hrest : lastNamed rest n with
      | some g => rfl
      | none => rw [dictGet_dictInsert_ne base f.name n _ hf]

/-! ## Claim theorems -/

/-- C5: for every raw gateway text that is empty or whitespace-only after
stripping, the Response Normalizer fails with the empty-response condition
(`ValueError("Empty Gemini response")`) and never returns a parsed object. -/
theorem c5_empty_response_fails (raw : List Char) (h : pyStrip raw = []) :
    parse_gemini_json raw =
      Except.error (PyErr.valueError "Empty Gemini response".data) := by
  unfold parse_gemini_json
  simp [h]

/-- Witness for C5 at the whitespace-only text `"   "`. -/
theorem c5_empty_response_fails_witness :
    pyStrip "   ".data = [] ∧
      parse_gemini_json "   ".data =
        Except.error (PyErr.valueError "Empty Gemini response".data) :=
  ⟨rfl, c5_empty_response_fails "   ".data rfl⟩

/-- C1 counterexample: the unfenced content `{"a": "\""}` parses directly as
JSON (an object whose value is the one-character string `"`), but the
normalizer applied to the fenced text does not return that object — the
quote-unescape repair corrupts the content and parsing fails. -/
theorem c1_counterexample :
    json_loads "\x7b\"a\": \"\\\"\"\x7d".data =
      some (Json.obj [("a".data, Json.str ['"'])]) ∧
    parse_gemini_json (fenceWrap "\x7b\"a\": \"\\\"\"\x7d".data) =
      Except.error PyErr.jsonDecodeError :=
  ⟨rfl, rfl⟩

/-- C1 (amended): for a JSON object text `c` that is already stripped,
contains no backtick, no backslash-quote sequence, is left unchanged by the
trailing-comma removal, and parses as JSON, the normalizer applied to the
fenced text `` ```json\n<c>\n``` `` returns exactly the object obtained by
parsing `c` directly. -/
theorem c1_fenced_normalizer_agrees (c : List Char) (v : Json)
    (hobj : ∃ t, c = '{' :: t)
    (hstrip : pyStrip c = c)
    (hbt : '`' ∉ c)
    (hesc : hasEscQuote c = false)
    (hcomma : pyReSub3 c = c)
    (hv : json_loads c = some v) :
    parse_gemini_json (fenceWrap c) = Except.ok v := by
  obtain ⟨t, ht⟩ := hobj
  have hfw : pyStrip (fenceWrap c) = fenceWrap c := by
    have hshape : fenceWrap c =
        '`' :: ((['`', '`', 'j', 's', 'o', 'n', '\n'] ++ c ++ ['\n', '`', '`']) ++ ['`']) := by
      show '`' :: '`' :: '`' :: 'j' :: 's' :: 'o' :: 'n' :: '\n' ::
          (c ++ ['\n', '`', '`', '`']) = _
      simp [List.cons_append, List.nil_append, List.append_assoc]
    rw [hshape]
    exact pyStrip_ends_nonws _ _ _ (by decide) (by decide)
  have hne : fenceWrap c ≠ [] := by
    rw [show fenceWrap c = '`' :: ('`' :: '`' :: 'j' :: 's' :: 'o' :: 'n' :: '\n' ::
      (c ++ ['\n', '`', '`', '`'])) from rfl]
    exact List.cons_ne_nil _ _
  have hjl : json_loads (fenceWrap c) = none := by
    rw [show fenceWrap c = '`' :: ('`' :: '`' :: 'j' :: 's' :: 'o' :: 'n' :: '\n' ::
      (c ++ ['\n', '`', '`', '`'])) from rfl]
    exact json_loads_cons_backtick _
  have e2 : pyReSub1 (fenceWrap c) = '\n' :: (c ++ ['\n']) := pyReSub1_fence c hbt
  have e3 : pyStrip ('\n' :: (c ++ ['\n'])) = c := by
    rw [pyStrip_sandwich c '\n' '\n' (by decide) (by decide), hstrip]
  have e4 : pyReSub2 c = c := pyReSub2_id hbt
  have e5 : lowerStartsJson c = false := ht ▸ lowerStartsJson_brace t
  have e6 : unescapeQuotes c = c := unescapeQuotes_of_no_esc hesc
  have hclean : clean_json_text (fenceWrap c) = c := by
    unfold clean_json_text
    rw [if_neg hne]
    simp only [hfw, e2, e3, e4, e5, e6, hcomma, hstrip, Bool.false_eq_true, if_false]
  unfold parse_gemini_json
  simp only [hfw]
  rw [if_neg hne]
  simp only [hjl, hclean, hv]

/-- Witness for C1 at the fenced object `` ```json\n{"a": 1}\n``` ``. -/
theorem c1_fenced_normalizer_agrees_witness :
    json_loads "\x7b\"a\": 1\x7d".data = some (Json.obj [("a".data, Json.num ['1'])]) ∧
      parse_gemini_json (fenceWrap "\x7b\"a\": 1\x7d".data) =
        Except.ok (Json.obj [("a".data, Json.num ['1'])]) :=
  ⟨rfl, c1_fenced_normalizer_agrees "\x7b\"a\": 1\x7d".data _
    ⟨"\"a\": 1\x7d".data, rfl⟩ rfl (by decide) rfl rfl rfl⟩

/-- C2 counterexample: for the raw text `{"a": "\"",}` the only malformation
is the trailing comma — removing it (the comma-removal step alone) yields
text that parses — yet the full repair `clean_json_text` produces text that
does not parse, because the quote-unescape step corrupts the string content
first. -/
theorem c2_counterexample :
    json_loads (pyReSub3 (pyStrip "\x7b\"a\": \"\\\"\",\x7d".data)) =
      some (Json.obj [("a".data, Json.str ['"'])]) ∧
    json_loads (clean_json_text "\x7b\"a\": \"\\\"\",\x7d".data) = none :=
  ⟨rfl, rfl⟩

/-- C2 (amended): for a raw text with no backtick, no backslash-quote
sequence, and no leading `json` marker, if removing trailing commas from the
stripped text yields text that parses as JSON, then the text produced by
`clean_json_text` parses to the same value. -/
theorem c2_trailing_comma_repair (t : List Char) (v : Json)
    (hbt : '`' ∉ t)
    (hjson : lowerStartsJson (pyStrip t) = false)
    (hesc : hasEscQuote t = false)
    (hv : json_loads (pyStrip (pyReSub3 (pyStrip t))) = some v) :
    json_loads (clean_json_text t) = some v := by
  have hne : t ≠ [] := by
    intro h
    subst h
    rw [show pyStrip ([] : List Char) = [] from rfl,
      show pyReSub3 ([] : List Char) = [] from rfl,
      show pyStrip ([] : List Char) = [] from rfl, json_loads_nil] at hv
    exact Option.noConfusion hv
  have hbt' : '`' ∉ pyStrip t := fun h => hbt (mem_of_mem_pyStrip h)
  have e1 : pyReSub1 (pyStrip t) = pyStrip t := pyReSub1_id hbt'
  have e2 : pyStrip (pyStrip t) = pyStrip t := pyStrip_idem t
  have e3 : pyReSub2 (pyStrip t) = pyStrip t := pyReSub2_id hbt'
  have e4 : unescapeQuotes (pyStrip t) = pyStrip t :=
    unescapeQuotes_of_no_esc (hasEscQuote_pyStrip hesc)
  unfold clean_json_text
  rw [if_neg hne]
  simp only [e1, e2, e3, e4, hjson, Bool.false_eq_true, if_false]
  exact hv

/-- Witness for C2 at the raw text `{"a": 1,}` (the spec's own scenario
without the fence). -/
theorem c2_trailing_comma_repair_witness :
    json_loads (pyStrip (pyReSub3 (pyStrip "\x7b\"a\": 1,\x7d".data))) =
      some (Json.obj [("a".data, Json.num ['1'])]) ∧
    json_loads (clean_json_text "\x7b\"a\": 1,\x7d".data) =
      some (Json.obj [("a".data, Json.num ['1'])]) :=
  ⟨rfl, c2_trailing_comma_repair "\x7b\"a\": 1,\x7d".data _ (by decide) rfl rfl rfl⟩

/-- C3 counterexample: in recog5.py, when parsing still fails after the one
repair-and-retry (raw text `not json`), the failure branch renders only the
exception message: the raw gateway text is not displayed (`codeBlocks = []`)
and no retry control is offered (`retryButton = false`), contradicting the
claim for this app. -/
theorem c3_counterexample :
    parse_gemini_json (pyStrip "not json".data) = Except.error PyErr.jsonDecodeError ∧
    recog5_planning_parse "not json".data =
      PhaseStepResult.failed
        ⟨["⚠️ Gemini returned invalid JSON or error: ".data ++ "Expecting value".data],
         [], false⟩ :=
  ⟨rfl, rfl⟩

/-- C3 (amended): in recog4.py, whenever JSON parsing still fails after the
one repair-and-retry on a nonempty response, the failure branch carries the
(stripped) raw gateway text, displays it verbatim in a code block, and
offers the manual one-shot retry control. -/
theorem c3_recog4_failure_surfaces_raw (respText : List Char) (e : PyErr)
    (hne : pyStrip respText ≠ [])
    (hfail : parse_gemini_json (pyStrip respText) = Except.error e) :
    recog4_planning_parse respText =
      PhaseStepResult.failed
        ⟨["⚠️ Gemini returned invalid JSON after repair:".data],
         [pyStrip respText], true⟩ := by
  unfold recog4_planning_parse
  rw [if_neg (by simpa [List.isEmpty_iff] using hne), hfail]

/-- Witness for C3 at the unparseable response `not json`. -/
theorem c3_recog4_failure_surfaces_raw_witness :
    parse_gemini_json (pyStrip "not json".data) = Except.error PyErr.jsonDecodeError ∧
    recog4_planning_parse "not json".data =
      PhaseStepResult.failed
        ⟨["⚠️ Gemini returned invalid JSON after repair:".data],
         [pyStrip "not json".data], true⟩ :=
  ⟨rfl, c3_recog4_failure_surfaces_raw "not json".data PyErr.jsonDecodeError
    (by decide) rfl⟩

/-- C4: wizard phase transitions are monotonic along
collect → planning → designing → finalize → generate: every step keeps the
phase, advances it by exactly one position, or is a full reset to the
initial state; the phase becomes `designing` only through the planning
confirmation with a truthy cached planning response; and from the terminal
`generate` phase every event either stays in `generate` or is the full
reset back to `collect`. -/
theorem c4_phase_transitions (s : WizardState) (e : WizardEvent) :
    ((wizardStep s e).phase = s.phase ∨
      phaseIdx (wizardStep s e).phase = phaseIdx s.phase + 1 ∨
      wizardStep s e = init_state) ∧
    ((wizardStep s e).phase = Phase.designing → s.phase ≠ Phase.designing →
      e = WizardEvent.confirmPlanning ∧ s.phase = Phase.planning ∧
        respTruthy s.planning_response = true) ∧
    (s.phase = Phase.generate →
      (wizardStep s e).phase = Phase.generate ∨
        (e = WizardEvent.reset ∧ wizardStep s e = init_state)) := by
  refine ⟨?_, ?_, ?_⟩ <;> cases e <;> simp only [wizardStep] <;>
    split_ifs <;> simp_all [phaseIdx, init_state]

/-- Witness for C4: from the `generate` phase, the reset event returns to
the initial `collect` state. -/
theorem c4_phase_transitions_witness :
    (wizardStep ⟨Phase.generate, none, none, none⟩ WizardEvent.reset).phase =
        Phase.generate ∨
      (WizardEvent.reset = WizardEvent.reset ∧
        wizardStep ⟨Phase.generate, none, none, none⟩ WizardEvent.reset = init_state) :=
  (c4_phase_transitions ⟨Phase.generate, none, none, none⟩ WizardEvent.reset).2.2 rfl

/-- C6: `zip_project` writes a single archive at the fixed path
`generated_project.zip` in overwrite mode (`'w'`), containing every mapping
entry verbatim in order; and inserting the same name twice while building
the file set keeps only the last-inserted content for that name. -/
theorem c6_zip_project_spec (d : List (List Char × FileContent)) (k : List Char)
    (v1 v2 : FileContent) :
    (zip_project d).path = "generated_project.zip".data ∧
    (zip_project d).mode = 'w' ∧
    (zip_project d).entries = d ∧
    dictGet (dictInsert (dictInsert d k v1) k v2) k = some v2 := by
  refine ⟨rfl, rfl, ?_, dictGet_dictInsert_eq _ _ _⟩
  show d.foldl (fun acc p => acc ++ [(p.1, p.2)]) [] = d
  rw [foldl_writestr_eq d []]
  rfl

/-- C7 counterexample: in recog3.py, triggering generation with no uploaded
file and no URL does not no-op: an informational note (not a warning) is
shown and a text-only gateway request is still issued. -/
theorem c7_counterexample :
    (recog3Analyze (fun _ => []) none none "hi".data).request =
      some [ReqPart.textPart "hi".data] ∧
    (recog3Analyze (fun _ => []) none none "hi".data).warnings = [] :=
  ⟨rfl, rfl⟩

/-- C7 (amended): in recog.py, triggering "Generate Answer" with no input
image warns and performs no operation — no gateway request is issued. -/
theorem c7_recog_no_image_warns (prompt : List Char) :
    (recogGenerateAnswer none prompt).request = none ∧
    (recogGenerateAnswer none prompt).warnings =
      ["Please upload or provide an image URL first.".data] :=
  ⟨rfl, rfl⟩

/-- C8: uploading a PDF that rasterizes to exactly 3 pages in recog3.py
produces a gateway request consisting of the text prompt followed by exactly
3 image attachments, in page order. -/
theorem c8_pdf_three_pages (convert_from_bytes : List Nat → List PILImage)
    (pdf : List Nat) (url_bytes : Option (List Nat)) (prompt : List Char)
    (p1 p2 p3 : PILImage)
    (hconv : convert_from_bytes pdf = [p1, p2, p3]) :
    (recog3Analyze convert_from_bytes (some ⟨"application/pdf".data, pdf⟩)
        url_bytes prompt).request =
      some [ReqPart.textPart prompt,
        ReqPart.imagePart (image_to_bytes p1) "image/jpeg".data,
        ReqPart.imagePart (image_to_bytes p2) "image/jpeg".data,
        ReqPart.imagePart (image_to_bytes p3) "image/jpeg".data] := by
  have hred : recog3Analyze convert_from_bytes (some ⟨"application/pdf".data, pdf⟩)
      url_bytes prompt =
    ⟨[], ["Processing PDF pages into images...".data],
      some (ReqPart.textPart prompt :: (convert_from_bytes pdf).map
        (fun p => ReqPart.imagePart (image_to_bytes p) "image/jpeg".data))⟩ := rfl
  rw [hred, hconv]
  rfl

/-- Witness for C8 at a concrete 3-page rasterizer. -/
theorem c8_pdf_three_pages_witness :
    (recog3Analyze (fun _ => [⟨[1]⟩, ⟨[2]⟩, ⟨[3]⟩])
        (some ⟨"application/pdf".data, [9]⟩) none "describe".data).request =
      some [ReqPart.textPart "describe".data,
        ReqPart.imagePart [1] "image/jpeg".data,
        ReqPart.imagePart [2] "image/jpeg".data,
        ReqPart.imagePart [3] "image/jpeg".data] :=
  c8_pdf_three_pages _ _ _ _ ⟨[1]⟩ ⟨[2]⟩ ⟨[3]⟩ rfl

/-- C9: after code generation succeeds, the packaged file set always has
entries named `generated_app.py` and `README.md`; uploads are inserted after
these two entries, so an upload sharing one of these names replaces that
entry's content (the last such upload wins) while the name stays present. -/
theorem c9_project_files_invariant (code : List Char) (uploads : List UploadedFile) :
    (dictGet (assembleProjectFiles code uploads) "generated_app.py".data).isSome = true ∧
    (dictGet (assembleProjectFiles code uploads) "README.md".data).isSome = true ∧
    (∀ f : UploadedFile, lastNamed uploads "README.md".data = some f →
      dictGet (assembleProjectFiles code uploads) "README.md".data =
        some (FileContent.binary f.bytes)) ∧
    (∀ f : UploadedFile, lastNamed uploads "generated_app.py".data = some f →
      dictGet (assembleProjectFiles code uploads) "generated_app.py".data =
        some (FileContent.binary f.bytes)) := by
  unfold assembleProjectFiles
  refine ⟨?_, ?_, ?_, ?_⟩
  · rw [foldl_dictInsert_get]
    cases h : lastNamed uploads "generated_app.py".data <;> simp [dictGet]
  · rw [foldl_dictInsert_get]
    cases h : lastNamed uploads "README.md".data <;> simp [dictGet]
  · intro f hf
    rw [foldl_dictInsert_get, hf]
  · intro f hf
    rw [foldl_dictInsert_get, hf]

/-- Witness for C9: an uploaded file named `README.md` replaces the README
content while the entry name stays present. -/
theorem c9_project_files_invariant_witness :
    dictGet (assembleProjectFiles "x".data
        [⟨"README.md".data, "text/markdown".data, [7]⟩]) "README.md".data =
      some (FileContent.binary [7]) :=
  (c9_project_files_invariant "x".data
      [⟨"README.md".data, "text/markdown".data, [7]⟩]).2.2.1
    ⟨"README.md".data, "text/markdown".data, [7]⟩ rfl

/-- C10: every non-empty upload action replaces the entire stored
uploaded-file list with exactly the newly uploaded files (name, declared
type, raw bytes), independently of what was stored before. -/
theorem c10_upload_replaces (prev uploaded : List UploadedFile)
    (h : uploaded ≠ []) :
    fileUploadHandler prev uploaded =
      uploaded.map (fun f => { name := f.name, type := f.type, bytes := f.bytes }) := by
  unfold fileUploadHandler
  rw [if_neg (by simpa [List.isEmpty_iff] using h)]

/-- Witness for C10: a new single-file upload discards the previously stored
file. -/
theorem c10_upload_replaces_witness :
    fileUploadHandler [⟨"old.txt".data, "text/plain".data, [1]⟩]
        [⟨"new.txt".data, "text/plain".data, [2]⟩] =
      [⟨"new.txt".data, "text/plain".data, [2]⟩] :=
  c10_upload_replaces _ _ (List.cons_ne_nil _ _)
